import Mathlib

/-!
Shallow embedding of `src/xml.js` (a small XML parser / composer library) and
proofs about the claims of its specification.

Strings are modelled as `List Char` in the scanning / rewriting core, with
`String` wrappers where the tree data model stores text.  JS `lastIndex`
cursors are explicit `Nat` positions.  JS exceptions are modelled with
`Except`: a `.error` value means the corresponding JS call throws.  Loops are
modelled with fuel; fuel exhaustion is modelled as the scanner finding no
further match, and every concrete evaluation below is run with ample fuel.
-/

deriving instance DecidableEq for Except

namespace XmlSorter

/-- JS `\s` (whitespace) character class, as used by the source's regexes and
`trim`: ASCII whitespace plus the Unicode space characters JS includes. -/
def jsIsSpace (c : Char) : Bool :=
  c = ' ' ∨ c = '\t' ∨ c = '\n' ∨ c = '\x0b' ∨ c = '\x0c' ∨ c = '\r' ∨
  c = ' ' ∨ c = ' ' ∨ (' ' ≤ c ∧ c ≤ ' ') ∨
  c = ' ' ∨ c = ' ' ∨ c = ' ' ∨ c = ' ' ∨ c = '　' ∨
  c = '﻿'

/-- JS `\w`: ASCII word characters. -/
def isWordChar (c : Char) : Bool :=
  ('A' ≤ c ∧ c ≤ 'Z') ∨ ('a' ≤ c ∧ c ≤ 'z') ∨ ('0' ≤ c ∧ c ≤ '9') ∨ c = '_'

/-- Character class of `patStandardTag` names and `patAttrib` names:
`[\w\-\:\.]`. -/
def isNameChar (c : Char) : Bool :=
  isWordChar c ∨ c = '-' ∨ c = ':' ∨ c = '.'

/-- Character class of `patPINode` / DTD names: `[\w\-\:]` (no dot). -/
def isPiNameChar (c : Char) : Bool :=
  isWordChar c ∨ c = '-' ∨ c = ':'

/-- JS line terminators, the characters excluded by an un-flagged `.`. -/
def isLineTerm (c : Char) : Bool :=
  c = '\n' ∨ c = '\r' ∨ c = ' ' ∨ c = ' '

/-- JS `String.prototype.trim`-style stripping as the source's `trim` does via
`replace(/^\s+/, "")` and `replace(/\s+$/, "")`. -/
def jsTrim (s : List Char) : List Char :=
  (s.dropWhile jsIsSpace).reverse.dropWhile jsIsSpace |>.reverse

/-- Fueled worker for JS `text.replace(/lit/g, r)` on a literal pattern `p`:
scan left to right, replace each non-overlapping leftmost occurrence of `p` by
`r`, and continue after the replaced occurrence (the replacement text is not
rescanned), exactly as a global-regex `replace` does. -/
def replAux (p r : List Char) : Nat → List Char → List Char
  | _, [] => []
  | 0, s => s
  | fuel + 1, c :: t =>
    if p.isPrefixOf (c :: t) then r ++ replAux p r fuel ((c :: t).drop p.length)
    else c :: replAux p r fuel t

/-- JS `text.replace(/lit/g, r)` for a literal pattern: the fuel
`(c :: t).length` is always sufficient because every step consumes at least
one character of the scanned string. -/
def jsReplaceAll (p r : List Char) (s : List Char) : List Char :=
  replAux p r s.length s

/-- `encode_entities` of the source: escape `&` (first), `<`, `>`. -/
def encode_entities (s : List Char) : List Char :=
  jsReplaceAll ">".toList "&gt;".toList
    (jsReplaceAll "<".toList "&lt;".toList
      (jsReplaceAll "&".toList "&amp;".toList s))

/-- `encode_attrib_entities` of the source: escape `&` (first), `<`, `>`,
`"`, `'`. -/
def encode_attrib_entities (s : List Char) : List Char :=
  jsReplaceAll "'".toList "&apos;".toList
    (jsReplaceAll "\"".toList "&quot;".toList (encode_entities s))

/-- The five decode replacements of `decode_entities`, in source order:
`&lt; &gt; &quot; &apos;` then `&amp;` last. -/
def decodeCore (s : List Char) : List Char :=
  jsReplaceAll "&amp;".toList "&".toList
    (jsReplaceAll "&apos;".toList "'".toList
      (jsReplaceAll "&quot;".toList "\"".toList
        (jsReplaceAll "&gt;".toList ">".toList
          (jsReplaceAll "&lt;".toList "<".toList s))))

/-- `decode_entities` of the source: the replacements only run when the input
contains `&` (`text.match(/\&/)`). -/
def decode_entities (s : List Char) : List Char :=
  if s.contains '&' then decodeCore s else s

/-- `String`-level wrapper of `decode_entities`, used where the parser stores
decoded text into the tree. -/
def decode_entitiesS (s : String) : String :=
  ⟨decode_entities s.data⟩

/-- `String`-level wrapper of `encode_entities`. -/
def encode_entitiesS (s : String) : String :=
  ⟨encode_entities s.data⟩

/-- `String`-level wrapper of `encode_attrib_entities`. -/
def encode_attrib_entitiesS (s : String) : String :=
  ⟨encode_attrib_entities s.data⟩

/-- `String`-level wrapper of `jsTrim`. -/
def jsTrimS (s : String) : String :=
  ⟨jsTrim s.data⟩

/-! ## Data model

A parsed JS value is a string (`scalar`), a plain object (`elem`, a key/value
list in insertion order, keys kept unique by `setKey`), or an array (`seq`).
This is the tagged-variant view of the dynamic values `XML.prototype.parse`
builds. -/

inductive Node where
  | scalar (s : String)
  | elem (kv : List (String × Node))
  | seq (xs : List Node)

mutual

/-- Structural (boolean) equality of parsed values. -/
def nodeBEq : Node → Node → Bool
  | .scalar a, .scalar b => a = b
  | .elem a, .elem b => kvBEq a b
  | .seq a, .seq b => seqBEq a b
  | _, _ => false

/-- Structural equality of key/value lists. -/
def kvBEq : List (String × Node) → List (String × Node) → Bool
  | [], [] => true
  | (k, v) :: r, (k2, v2) :: r2 => k = k2 ∧ nodeBEq v v2 ∧ kvBEq r r2
  | _, _ => false

/-- Structural equality of member lists. -/
def seqBEq : List Node → List Node → Bool
  | [], [] => true
  | x :: r, y :: r2 => nodeBEq x y ∧ seqBEq r r2
  | _, _ => false

end

mutual

theorem nodeBEq_iff : (a b : Node) → (nodeBEq a b = true ↔ a = b)
  | .scalar x, .scalar y => by simp [nodeBEq]
  | .elem x, .elem y => by
      simpa [nodeBEq] using (kvBEq_iff x y).trans (by simp)
  | .seq x, .seq y => by
      simpa [nodeBEq] using (seqBEq_iff x y).trans (by simp)
  | .scalar _, .elem _ => by simp [nodeBEq]
  | .scalar _, .seq _ => by simp [nodeBEq]
  | .elem _, .scalar _ => by simp [nodeBEq]
  | .elem _, .seq _ => by simp [nodeBEq]
  | .seq _, .scalar _ => by simp [nodeBEq]
  | .seq _, .elem _ => by simp [nodeBEq]

theorem kvBEq_iff : (a b : List (String × Node)) → (kvBEq a b = true ↔ a = b)
  | [], [] => by simp [kvBEq]
  | (k, v) :: r, (k2, v2) :: r2 => by
      simp [kvBEq, nodeBEq_iff v v2, kvBEq_iff r r2, and_assoc]
  | [], _ :: _ => by simp [kvBEq]
  | _ :: _, [] => by simp [kvBEq]

theorem seqBEq_iff : (a b : List Node) → (seqBEq a b = true ↔ a = b)
  | [], [] => by simp [seqBEq]
  | x :: r, y :: r2 => by
      simp [seqBEq, nodeBEq_iff x y, seqBEq_iff r r2]
  | [], _ :: _ => by simp [seqBEq]
  | _ :: _, [] => by simp [seqBEq]

end

instance : DecidableEq Node := fun a b => decidable_of_iff _ (nodeBEq_iff a b)

/-- A `branch` of the parse: a JS object, keys in insertion order. -/
abbrev Branch := List (String × Node)

/-- JS property lookup `obj[k]` on an object (first matching key). -/
def getKey (kv : Branch) (k : String) : Option Node :=
  match kv with
  | [] => none
  | (k', v) :: rest => if k' = k then some v else getKey rest k

/-- JS property assignment `obj[k] = v`: updates the value in place if the key
exists (keeping its position in insertion order), else appends. -/
def setKey (kv : Branch) (k : String) (v : Node) : Branch :=
  match kv with
  | [] => [(k, v)]
  | (k', v') :: rest => if k' = k then (k', v) :: rest else (k', v') :: setKey rest k v

/-- JS `delete obj[k]`. -/
def delKey (kv : Branch) (k : String) : Branch :=
  match kv with
  | [] => []
  | (k', v') :: rest => if k' = k then rest else (k', v') :: delKey rest k

/-- `num_keys` of the source: the number of enumerable keys of an object. -/
def numKeys (kv : Branch) : Nat := kv.length

/-- `first_key` of the source (`null` when there are no keys). -/
def firstKey (kv : Branch) : Option String := kv.head?.map Prod.fst

/-- JS `Array.isArray` over the variant. -/
def isaArray : Node → Bool
  | .seq _ => true
  | _ => false

/-- JS truthiness of a parsed value: only the empty string is falsy here
(objects and arrays are always truthy). -/
def jsTruthy : Node → Bool
  | .scalar s => s ≠ ""
  | _ => true

mutual

/-- JS string coercion of a parsed value, as `+` / `+=` performs it:
strings unchanged, plain objects become `[object Object]`, arrays join their
members with `,`. -/
def jsToString : Node → String
  | .scalar s => s
  | .elem _ => "[object Object]"
  | .seq xs => jsJoinComma xs

/-- JS `Array.prototype.toString`: members coerced and joined with commas. -/
def jsJoinComma : List Node → String
  | [] => ""
  | [x] => jsToString x
  | x :: y :: rest => jsToString x ++ "," ++ jsJoinComma (y :: rest)

end

/-! ## Tag scanner

`patTag = /([^<]*?)<([^>]+)>/g` with an explicit `lastIndex` cursor.  A match
at retry position `s` is: the text up to the first `<` at or after `s`, then
that tag's interior up to the first following `>`, which must be non-empty;
when the interior would be empty (`<>`), the regex engine restarts just past
that `<`. -/

/-- Index of the first occurrence of `c` in `s`. -/
def findCharIdx (c : Char) : List Char → Option Nat
  | [] => none
  | a :: t => if a = c then some 0 else (findCharIdx c t).map (· + 1)

/-- Index of the first occurrence of `c` in `t` at position `≥ i`. -/
def findCharFrom (t : List Char) (c : Char) (i : Nat) : Option Nat :=
  (findCharIdx c (t.drop i)).map (· + i)

/-- The sublist `t[a..b)`. -/
def slice (t : List Char) (a b : Nat) : List Char :=
  (t.drop a).take (b - a)

/-- Fueled retry loop of one `patTag.exec`: returns
`(before, tag interior, new lastIndex)`. -/
def patTagAux (t : List Char) : Nat → Nat → Option (List Char × List Char × Nat)
  | 0, _ => none
  | fuel + 1, s =>
    match findCharFrom t '<' s with
    | none => none
    | some j =>
      match findCharFrom t '>' (j + 1) with
      | none => none
      | some k =>
        if j + 1 < k then some (slice t s j, slice t (j + 1) k, k + 1)
        else patTagAux t fuel (j + 1)

/-- One `patTag.exec(text)` from cursor `i`; `none` means no further match
(in which case JS resets `lastIndex` to 0, handled at the call site). -/
def patTagExec (t : List Char) (i : Nat) : Option (List Char × List Char × Nat) :=
  patTagAux t (t.length + 1) i

/-- One `patNextClose.exec` (`/([^>]*?)>/g`) from cursor `i`: the chunk up to
the next `>` and the advanced cursor. -/
def patNextCloseExec (t : List Char) (i : Nat) : Option (List Char × Nat) :=
  match findCharFrom t '>' i with
  | none => none
  | some k => some (slice t i k, k + 1)

/-! ## Node classifier -/

/-- `\s*`: greedy whitespace skip. -/
def skipWs (s : List Char) : List Char := s.dropWhile jsIsSpace

/-- `patSpecialTag = /^\s*([\!\?])/`. -/
def isSpecialTag (tag : List Char) : Bool :=
  match skipWs tag with
  | '!' :: _ => true
  | '?' :: _ => true
  | _ => false

/-- `patPITag = /^\s*\?/`. -/
def isPITag (tag : List Char) : Bool :=
  (skipWs tag).head? = some '?'

/-- `patCommentTag`: the pattern `^\s*\!--`. -/
def isCommentTag (tag : List Char) : Bool :=
  "!--".toList.isPrefixOf (skipWs tag)

/-- `patDTDTag = /^\s*\!DOCTYPE/`. -/
def isDTDTag (tag : List Char) : Bool :=
  "!DOCTYPE".toList.isPrefixOf (skipWs tag)

/-- `patCDATATag = /^\s*\!\s*\[\s*CDATA/`. -/
def isCDATATag (tag : List Char) : Bool :=
  match skipWs tag with
  | '!' :: r =>
    match skipWs r with
    | '[' :: r2 => "CDATA".toList.isPrefixOf (skipWs r2)
    | _ => false
  | _ => false

/-- `[\w\-\:\.]+` followed by `\s*`: the tag name and the attribute region.
Fails when no name character is present. -/
def nameAndRest (s : List Char) : Option (List Char × List Char) :=
  let n := s.takeWhile isNameChar
  if n.isEmpty then none else some (n, skipWs (s.drop n.length))

/-- `patStandardTag = /^\s*(\/?)([\w\-\:\.]+)\s*([\s\S]*)$/`: returns
`(closing?, raw name, attribute region)`, or `none` (a malformed tag). -/
def parseStandardTag (tag : List Char) : Option (Bool × List Char × List Char) :=
  match skipWs tag with
  | '/' :: r2 => (nameAndRest r2).map (fun p => (true, p.1, p.2))
  | r => (nameAndRest r).map (fun p => (false, p.1, p.2))

/-- `patSelfClosing = /\/\s*$/` on the attribute region. -/
def isSelfClosingRaw (ar : List Char) : Bool :=
  (ar.reverse.dropWhile jsIsSpace).head? = some '/'

/-! ## Attribute parser

`patAttrib = /([\w\-\:\.]+)\s*=\s*([\"\'])([^\2]*?)\2/g`.  Note the JS
quirk: inside a character class `\2` is the octal escape for `\x02`, not a
backreference, so the value is a lazy run of any characters other than
`\x02` up to the first occurrence of the opening quote character. -/

/-- Try to match one attribute exactly at the start of `r`; returns
`(name, raw value, matched length)`. -/
def attribAtPos (r : List Char) : Option (List Char × List Char × Nat) :=
  let n := r.takeWhile isNameChar
  if n.isEmpty then none
  else
    let r1 := r.drop n.length
    let w1 := r1.takeWhile jsIsSpace
    match r1.drop w1.length with
    | '=' :: r3 =>
      let w2 := r3.takeWhile jsIsSpace
      match r3.drop w2.length with
      | q :: r5 =>
        if q = '"' ∨ q = '\'' then
          let v := r5.takeWhile (fun c => c ≠ q ∧ c ≠ '\x02')
          if (r5.drop v.length).head? = some q then
            some (n, v, n.length + w1.length + 1 + w2.length + 1 + v.length + 1)
          else none
        else none
      | [] => none
    | _ => none

/-- Fueled retry scan of one `patAttrib.exec` from cursor `i`: the regex
engine advances one position on a failed match attempt. -/
def patAttribAux (s : List Char) : Nat → Nat → Option (List Char × List Char × Nat)
  | 0, _ => none
  | fuel + 1, i =>
    match attribAtPos (s.drop i) with
    | some (n, v, len) => some (n, v, i + len)
    | none => if i < s.length then patAttribAux s fuel (i + 1) else none

/-- One `patAttrib.exec` from cursor `i`; returns
`(name, raw value, new lastIndex)`. -/
def patAttribExec (s : List Char) (i : Nat) : Option (List Char × List Char × Nat) :=
  patAttribAux s (s.length + 1) i

/-! ## Special-construct sub-parsers -/

/-- Strip a literal prefix. -/
def stripLit (lit s : List Char) : Option (List Char) :=
  if lit.isPrefixOf s then some (s.drop lit.length) else none

/-- `\s+`: require at least one whitespace character, consume the run. -/
def ws1 : List Char → Option (List Char)
  | [] => none
  | c :: r => if jsIsSpace c then some (skipWs r) else none

/-- `p+` for a character class `p`: require a non-empty run, consume it. -/
def chomp1 (p : Char → Bool) (s : List Char) : Option (List Char) :=
  let n := s.takeWhile p
  if n.isEmpty then none else some (s.drop n.length)

/-- `(a|b)` over two literals. -/
def orLit (a b s : List Char) : Option (List Char) :=
  match stripLit a s with
  | some r => some r
  | none => stripLit b s

/-- `patPINode = /^\s*\?\s*([\w\-\:]+)\s*(.*)$/`: a `.` does not match line
terminators and `$` anchors at the very end, so after the name and a greedy
whitespace run no line terminator may remain. -/
def piNodeCheck (tag : List Char) : Bool :=
  match skipWs tag with
  | '?' :: r =>
    let r2 := skipWs r
    let n := r2.takeWhile isPiNameChar
    ¬ n.isEmpty ∧ (skipWs (r2.drop n.length)).all (fun c => ¬ isLineTerm c)
  | _ => false

/-- `patExternalDTDNode`: `^\s*\!DOCTYPE\s+([\w\-\:]+)\s+(SYSTEM|PUBLIC)\s+\"([^\"]+)\"`
(prefix match, no anchor at the end). -/
def extDTDCheck (tag : List Char) : Bool :=
  (do
    let s ← stripLit "!DOCTYPE".toList (skipWs tag)
    let s ← ws1 s
    let s ← chomp1 isPiNameChar s
    let s ← ws1 s
    let s ← orLit "SYSTEM".toList "PUBLIC".toList s
    let s ← ws1 s
    let s ← stripLit "\"".toList s
    let s ← chomp1 (fun c => c ≠ '"') s
    let _ ← stripLit "\"".toList s
    some ()).isSome

/-- `patInlineDTDNode = /^\s*\!DOCTYPE\s+([\w\-\:]+)\s+\[/` (prefix match). -/
def inlineDTDCheck (tag : List Char) : Bool :=
  (do
    let s ← stripLit "!DOCTYPE".toList (skipWs tag)
    let s ← ws1 s
    let s ← chomp1 isPiNameChar s
    let s ← ws1 s
    let _ ← stripLit "[".toList s
    some ()).isSome

/-- `patDTDNode = /^\s*\!DOCTYPE\s+([\w\-\:]+)\s+\[(.*)\]/`: after the `[`,
a `]` must occur within the maximal line-terminator-free run. -/
def dtdNodeCheck (tag : List Char) : Bool :=
  (do
    let s ← stripLit "!DOCTYPE".toList (skipWs tag)
    let s ← ws1 s
    let s ← chomp1 isPiNameChar s
    let s ← ws1 s
    let s ← stripLit "[".toList s
    if (s.takeWhile (fun c => ¬ isLineTerm c)).contains ']' then some () else none).isSome

/-- The capture of a greedy `([^]*)\]\]`: the part of `s` before its last
occurrence of `]]`, or `none` when `]]` does not occur. -/
def capDD : List Char → Option (List Char)
  | [] => none
  | c :: t =>
    match capDD t with
    | some cap => some (c :: cap)
    | none => if c = ']' ∧ t.head? = some ']' then some [] else none

/-- `patCDATANode = /^\s*\!\s*\[\s*CDATA\s*\[([^]*)\]\]/`: the captured
CDATA content, or `none` (a malformed CDATA tag). -/
def cdataExtract (tag : List Char) : Option (List Char) :=
  match skipWs tag with
  | '!' :: r =>
    match skipWs r with
    | '[' :: r2 =>
      match stripLit "CDATA".toList (skipWs r2) with
      | some s =>
        match skipWs s with
        | '[' :: r4 => capDD r4
        | _ => none
      | none => none
    | _ => none
  | _ => none

/-- The shared multi-chunk loop of `parseCommentNode` / `parseDTDNode` /
`parseCDATANode`: keep appending `'>' ++ next chunk` until the accumulated
tag satisfies the construct's terminator test `done`; on success returns the
full tag and the advanced `patNextClose.lastIndex`; `.error` carries the
accumulated tag when input ends first (the Unclosed* failure). -/
def chunkUntil (text : List Char) (done : List Char → Bool) (fuel : Nat)
    (tag : List Char) (ncPos : Nat) : Except (List Char) (List Char × Nat) :=
  if done tag then .ok (tag, ncPos)
  else
    match fuel with
    | 0 => .error tag
    | f + 1 =>
      match patNextCloseExec text ncPos with
      | none => .error tag
      | some (chunk, nc') => chunkUntil text done f (tag ++ '>' :: chunk) nc'
termination_by structural fuel

/-! ## Error reporter -/

/-- The structured record `throwParseError` pushes: key, `<tag>` text, and
the computed 1-based line number. -/
structure XmlError where
  key : String
  tagText : String
  line : Int
deriving DecidableEq

/-- Count of line breaks, as `match(/\n/g).length`. -/
def countNL (s : List Char) : Nat := s.count '\n'

/-- `throwParseError`'s record: the line number is the count of line breaks
in `text.substring(0, patTag.lastIndex)` plus one, minus the line breaks
inside the offending tag itself. -/
def mkParseErr (text : List Char) (pos : Nat) (key : String) (tag : List Char) : XmlError :=
  { key := key
    tagText := "<" ++ String.mk tag ++ ">"
    line := (countNL (text.take pos) + 1 : Int) - countNL tag }

/-- `getError`: the formatted message (`error.line` is skipped when falsy,
i.e. zero; the tag text is always non-empty). -/
def getError (e : XmlError) : String :=
  "Parse Error: " ++ e.key ++
    (if e.line ≠ 0 then " on line " ++ toString e.line else "") ++ ": " ++ e.tagText

/-! ## Tree builder -/

/-- The recognized configuration options and their prototype defaults. -/
structure Opts where
  preserveDocumentNode : Bool := false
  preserveAttributes : Bool := false
  preserveWhitespace : Bool := false
  lowerCase : Bool := false
  forceArrays : Bool := false
  attribsKey : String := "_Attribs"
  dataKey : String := "_Data"
deriving DecidableEq

/-- The constructor lower-cases the reserved keys when `lowerCase` is set. -/
def normalizeOpts (o : Opts) : Opts :=
  if o.lowerCase then
    { o with attribsKey := o.attribsKey.toLower, dataKey := o.dataKey.toLower }
  else o

/-- `lowerCase` folding of element / attribute names. -/
def foldName (o : Opts) (s : String) : String :=
  if o.lowerCase then s.toLower else s

/-- Accumulate decoded text into the branch's reserved data slot: append with
a separating space when the slot already holds something (JS `+=` coerces a
non-string slot to a string first), trim unless whitespace preservation is
requested. -/
def addText (o : Opts) (branch : Branch) (raw : List Char) : Branch :=
  let processed : String :=
    if o.preserveWhitespace then ⟨decode_entities raw⟩ else ⟨jsTrim (decode_entities raw)⟩
  match getKey branch o.dataKey with
  | some old => setKey branch o.dataKey (.scalar (jsToString old ++ " " ++ processed))
  | none => setKey branch o.dataKey (.scalar processed)

/-- The attribute-region scan loop: `patAttrib.lastIndex = 0`, then repeated
`exec`, decoding entities in each value and folding names. -/
def parseAttribsAux (o : Opts) (ar : List Char) : Nat → Nat → Branch → Branch
  | 0, _, acc => acc
  | fuel + 1, i, acc =>
    match patAttribExec ar i with
    | none => acc
    | some (n, v, i') =>
      parseAttribsAux o ar fuel i'
        (setKey acc (foldName o ⟨n⟩) (.scalar (decode_entitiesS ⟨v⟩)))

/-- Parse the attribute region of an opening tag into a key/value list. -/
def parseAttribs (o : Opts) (ar : List Char) : Branch :=
  parseAttribsAux o ar (ar.length + 1) 0 []

/-- The Scalar-collapse rule of the builder: a leaf whose only key is the
reserved data slot becomes that slot's value; a leaf with no keys at all
becomes the empty string. -/
def collapseLeaf (o : Opts) (leaf : Branch) : Node :=
  match getKey leaf o.dataKey with
  | some v => if numKeys leaf = 1 then v else .elem leaf
  | none => if numKeys leaf = 0 then .scalar "" else .elem leaf

/-- Attach a finished child under its tag name (source lines 206-221): an
existing Sequence is extended, an existing single value is promoted to a
two-element Sequence, a fresh name is wrapped in a one-element Sequence when
array-forcing is on and the branch is not the document root, else assigned
directly. -/
def attachLeaf (o : Opts) (branch : Branch) (nodeName : String) (leaf : Node)
    (isRoot : Bool) : Branch :=
  match getKey branch nodeName with
  | some existing =>
    match existing with
    | .seq xs => setKey branch nodeName (.seq (xs ++ [leaf]))
    | _ => setKey branch nodeName (.seq [existing, leaf])
  | none =>
    if o.forceArrays ∧ ¬ isRoot then setKey branch nodeName (.seq [leaf])
    else setKey branch nodeName leaf

/-- The scanner state threaded through the parse: the `patTag` cursor and the
captured declaration lists. -/
structure ScanSt where
  pos : Nat
  pis : List (List Char)
  dtds : List (List Char)
deriving DecidableEq

/-- `null` coerced into a string by JS `+`, as in the mismatched-closing
message when the root level sees a closing tag. -/
def jsNameStr : Option String → String
  | some s => s
  | none => "null"

/-- The recursive tag loop of `XML.prototype.parse`: one call per open
element (`name = none` for the root call, `isRoot` standing for the JS
reference test `branch == this.tree`).  Errors are JS exceptions thrown by
`throwParseError` and propagate out immediately; a `.ok` return is reaching
the matching closing tag (or, for the root, the break after the first
attached element or the end of input).  Fuel exhaustion behaves like the
scanner finding no further tag. -/
def parseLoop (o : Opts) (text : List Char) :
    Nat → ScanSt → Branch → Option String → Bool → Except XmlError (ScanSt × Branch)
  | 0, st, branch, _, _ => .ok (st, branch)
  | fuel + 1, st, branch, name, isRoot =>
    match patTagExec text st.pos with
    | none =>
      match name with
      | some n =>
        .error (mkParseErr text 0 ("Missing closing tag (expected </" ++ n ++ ">)") n.toList)
      | none => .ok ({ st with pos := 0 }, branch)
    | some (before, tag, p') =>
      let st := { st with pos := p' }
      let branch :=
        if before.any (fun c => ¬ jsIsSpace c) then addText o branch before else branch
      if isSpecialTag tag then
        if isPITag tag then
          if piNodeCheck tag then
            parseLoop o text fuel { st with pis := st.pis ++ [tag] } branch name isRoot
          else .error (mkParseErr text st.pos "Malformed processor instruction" tag)
        else if isCommentTag tag then
          match chunkUntil text (fun u => "--".toList.isSuffixOf u) (text.length + 1) tag st.pos with
          | .error tagAcc => .error (mkParseErr text st.pos "Unclosed comment tag" tagAcc)
          | .ok (_, nc') => parseLoop o text fuel { st with pos := nc' } branch name isRoot
        else if isDTDTag tag then
          if extDTDCheck tag then
            parseLoop o text fuel { st with dtds := st.dtds ++ [tag] } branch name isRoot
          else if inlineDTDCheck tag then
            match chunkUntil text (fun u => "]".toList.isSuffixOf u) (text.length + 1) tag st.pos with
            | .error tagAcc => .error (mkParseErr text st.pos "Unclosed DTD tag" tagAcc)
            | .ok (tagAcc, nc') =>
              if dtdNodeCheck tagAcc then
                parseLoop o text fuel { st with pos := nc', dtds := st.dtds ++ [tagAcc] } branch name isRoot
              else .error (mkParseErr text nc' "Malformed DTD tag" tagAcc)
          else .error (mkParseErr text st.pos "Malformed DTD tag" tag)
        else if isCDATATag tag then
          match chunkUntil text (fun u => "]]".toList.isSuffixOf u) (text.length + 1) tag st.pos with
          | .error tagAcc => .error (mkParseErr text st.pos "Unclosed CDATA tag" tagAcc)
          | .ok (tagAcc, nc') =>
            match cdataExtract tagAcc with
            | none => .error (mkParseErr text nc' "Malformed CDATA tag" tagAcc)
            | some content =>
              parseLoop o text fuel { st with pos := nc' } (addText o branch content) name isRoot
        else .error (mkParseErr text st.pos "Malformed special tag" tag)
      else
        match parseStandardTag tag with
        | none => .error (mkParseErr text st.pos "Malformed tag" tag)
        | some (closing, rawName, attribsRaw) =>
          let nodeName := foldName o ⟨rawName⟩
          if closing then
            if nodeName = name.getD "" then .ok (st, branch)
            else
              .error (mkParseErr text st.pos
                ("Mismatched closing tag (expected </" ++ jsNameStr name ++ ">)") tag)
          else
            let attribs := parseAttribs o attribsRaw
            let leaf0 : Branch :=
              if o.preserveAttributes then
                if attribs.isEmpty then [] else [(o.attribsKey, .elem attribs)]
              else attribs
            let step : Except XmlError (ScanSt × Branch) :=
              if isSelfClosingRaw attribsRaw then .ok (st, leaf0)
              else parseLoop o text fuel st leaf0 (some nodeName) false
            match step with
            | .error e => .error e
            | .ok (st2, leaf1) =>
              let leaf2 := collapseLeaf o leaf1
              let branch2 := attachLeaf o branch nodeName leaf2 isRoot
              if isRoot then .ok (st2, branch2)
              else parseLoop o text fuel st2 branch2 name isRoot

/-- The result of a successful construction: the tree, the recorded document
element name, and the captured declaration lists. -/
structure XMLRes where
  tree : Node
  documentNodeName : String
  piNodes : List (List Char)
  dtdNodes : List (List Char)
deriving DecidableEq

/-- The root call of `parse` plus its master-node epilogue: discard any
root-level text slot, fail when more than one element key remains, record the
document node name and (unless the wrapper is retained) unwrap the tree. -/
def parseTop (o : Opts) (text : List Char) : Except XmlError XMLRes :=
  match parseLoop o text (2 * text.length + 8) ⟨0, [], []⟩ [] none true with
  | .error e => .error e
  | .ok (st, tree0) =>
    let tree1 := delKey tree0 o.dataKey
    if numKeys tree1 > 1 then
      .error (mkParseErr text st.pos "Only one top-level node is allowed in document"
        ((firstKey tree1).getD "").toList)
    else
      let docName := (firstKey tree1).getD ""
      let tree2 : Node :=
        if docName ≠ "" ∧ ¬ o.preserveDocumentNode then (getKey tree1 docName).getD (.elem tree1)
        else .elem tree1
      .ok ⟨tree2, docName, st.pis, st.dtds⟩

/-- The constructor's XML-vs-file-path test: `this.text.match(/^\s*</)`. -/
def looksLikeXml (text : String) : Bool :=
  ((text.data.dropWhile jsIsSpace).head? = some '<')

/-- Modelled from the spec: loading text from storage is an external
collaborator; when the argument does not look like XML the constructor
attempts a blocking file read, and a file-not-found condition is a
construction-time failure (the message is the thrown read error, not a
formatted parse error). -/
def fileReadFailure (path : String) : String :=
  "FileNotFound: " ++ path

/-- The public `parse` operation (`exports.parse`): run the constructor (which
parses in-line) and return the finished tree.  A `.error` value models a JS
exception escaping the call — `throwParseError` always ends in
`throw new Error(this.getLastError())`, and nothing catches it, so the
formatted message travels out as a thrown Error, and the
`parser.error() ? parser.getLastError() : parser.getTree()` ternary can only
ever take its tree branch. -/
def parse_xml (text : String) (opts : Opts) : Except String Node :=
  if looksLikeXml text then
    match parseTop (normalizeOpts opts) text.data with
    | .error e => .error (getError e)
    | .ok r => .ok r.tree
  else .error (fileReadFailure text)

/-! ## Composer

`compose_xml` (`exports.stringify`) renders a node back to text.  JS
`Array.prototype.sort` sorts **in place**, so composing can reorder the
Sequence arrays inside the input tree; the embedding therefore returns, next
to the rendered text, the post-state of the node argument. -/

/-- The fixed XML header emitted at the root. -/
def xml_header : String := "<?xml version=\"1.0\"?>"

/-- JS falsiness of the `name` parameter (`undefined`, `null` or `""`). -/
def jsFalsyName : Option String → Bool
  | none => true
  | some s => s = ""

/-- JS property lookup on an arbitrary value: objects by key, arrays and
strings by numeric index. -/
def jsGetKeyNode : Node → String → Option Node
  | .elem kv, k => getKey kv k
  | .seq xs, k =>
    match k.toNat? with
    | some i => xs[i]?
    | none => none
  | .scalar s, k =>
    match k.toNat? with
    | some i => (s.data[i]?).map (fun c => Node.scalar ⟨[c]⟩)
    | none => none

/-- JS property assignment on an arbitrary value (assignment to a string
index is silently ignored). -/
def jsSetKeyNode : Node → String → Node → Node
  | .elem kv, k, v => .elem (setKey kv k v)
  | .seq xs, k, v =>
    match k.toNat? with
    | some i => .seq (xs.set i v)
    | none => .seq xs
  | .scalar s, _, _ => .scalar s

/-- `first_key` over an arbitrary value: arrays and strings enumerate their
indices. -/
def jsFirstKeyNode : Node → Option String
  | .elem kv => firstKey kv
  | .seq xs => if xs.isEmpty then none else some "0"
  | .scalar s => if s.data.isEmpty then none else some "0"

/-- `for (var key in hash)` key collection, first-occurrence order. -/
def dedupAux : List String → List String → List String
  | [], _ => []
  | k :: ks, seen => if k ∈ seen then dedupAux ks seen else k :: dedupAux ks (k :: seen)

/-- Enumerable keys of a key/value list with duplicates dropped. -/
def dedupKeys (ks : List String) : List String := dedupAux ks []

/-- `hash_keys_to_array` over an arbitrary value. -/
def jsKeysOfNode : Node → List String
  | .elem kv => dedupKeys (kv.map Prod.fst)
  | .seq xs => (List.range xs.length).map toString
  | .scalar s => (List.range s.length).map toString

/-- `re_valid_tag_name = /^\w[\w\-\:\.]*$/`. -/
def validTagName (s : String) : Bool :=
  match s.data with
  | [] => false
  | c :: rest => isWordChar c ∧ rest.all isNameChar

/-- An injected comparator over strings (attribute keys / tag names). -/
abbrev StrCmp := String → String → Int

/-- An injected comparator over nodes (same-name siblings). -/
abbrev NodeCmp := Node → Node → Int

/-- The default JS sort comparator: compare the string coercions. -/
def defaultCmpStr (a b : String) : Int :=
  match compare a b with
  | .lt => -1
  | .eq => 0
  | .gt => 1

/-- Stable insertion of one element by a JS comparator. -/
def insCmp {α : Type} (f : α → α → Int) (a : α) : List α → List α
  | [] => [a]
  | b :: bs => if f a b ≤ 0 then a :: b :: bs else b :: insCmp f a bs

/-- `Array.prototype.sort` with a comparator: a stable sort. -/
def jsSortWith {α : Type} (f : α → α → Int) : List α → List α
  | [] => []
  | a :: as => insCmp f a (jsSortWith f as)

/-- Sort sibling nodes by the injected comparator, or by the default
string-coercion comparator. -/
def jsSortNodes (cmp : Option NodeCmp) (xs : List Node) : List Node :=
  jsSortWith (cmp.getD (fun a b => defaultCmpStr (jsToString a) (jsToString b))) xs

/-- Sort key strings by the injected comparator, or by the default. -/
def jsSortStrings (cmp : Option StrCmp) (ks : List String) : List String :=
  jsSortWith (cmp.getD defaultCmpStr) ks

/-- `encode_attrib_entities` applied to an attribute value: a non-string
value has no `.replace` and is coerced by the surrounding `+`; `undefined`
is `== null` and becomes the empty string. -/
def encodeAttrValue : Option Node → String
  | some (.scalar s) => encode_attrib_entitiesS s
  | some v => jsToString v
  | none => ""

/-- `encode_entities` applied to the reserved data slot's value. -/
def encodeDataValue : Node → String
  | .scalar s => encode_entitiesS s
  | v => jsToString v

/-- Attribute emission: ` key="escaped-value"` for each key. -/
def composeAttrs (av : Node) (keys : List String) : String :=
  keys.foldl (fun acc k => acc ++ " " ++ k ++ "=\"" ++ encodeAttrValue (jsGetKeyNode av k) ++ "\"") ""

/-- The indent text: `indent` copies of the indent unit. -/
def repeatStr (s : String) (n : Nat) : String :=
  String.join (List.replicate n s)

mutual

/-- `compose_xml` (`exports.stringify`).  At `indent = 0` (the JS falsy
check `!indent`) the XML header is emitted and, when no name is provided,
the content is unwrapped from its first key.  Returns the rendered text and
the post-state of `node` (in-place array sorts included). -/
def compose_xml (fuel : Nat) (node : Node) (name : Option String) (indent : Nat)
    (istr eol : String) (sort : Bool) (s1 : Option StrCmp) (s2 : Option NodeCmp)
    (s3 : Option StrCmp) : String × Node :=
  match fuel with
  | 0 => ("", node)
  | fuel + 1 =>
    if indent = 0 then
      let hdr := xml_header ++ eol
      if jsFalsyName name then
        let nm := jsFirstKeyNode node
        match jsGetKeyNode node (nm.getD "null") with
        | some sub =>
          let p := composeBody fuel sub nm 0 istr eol sort s1 s2 s3
          (hdr ++ p.1, jsSetKeyNode node (nm.getD "null") p.2)
        | none =>
          let p := composeBody fuel (.scalar "undefined") nm 0 istr eol sort s1 s2 s3
          (hdr ++ p.1, node)
      else
        let p := composeBody fuel node name 0 istr eol sort s1 s2 s3
        (hdr ++ p.1, p.2)
    else composeBody fuel node name indent istr eol sort s1 s2 s3
termination_by structural fuel

/-- The body of `compose_xml` after the root handling: the hash / array /
simple-string cases. -/
def composeBody (fuel : Nat) (node : Node) (name : Option String) (indent : Nat)
    (istr eol : String) (sort : Bool) (s1 : Option StrCmp) (s2 : Option NodeCmp)
    (s3 : Option StrCmp) : String × Node :=
  match fuel with
  | 0 => ("", node)
  | fuel + 1 =>
    let itext := repeatStr istr indent
    let nm := jsNameStr name
    match node with
    | .scalar sv =>
      (itext ++ "<" ++ nm ++ ">" ++ sv ++ "</" ++ nm ++ ">" ++ eol, .scalar sv)
    | .seq [] =>
      -- a zero-length array has falsy `length` and takes the hash branch
      -- with no enumerable keys: no attributes, no children, self-close
      (itext ++ "<" ++ nm ++ "/>" ++ eol, .seq [])
    | .seq (x :: xs) =>
      let sorted := if sort then jsSortNodes s2 (x :: xs) else x :: xs
      let p := composeMembers fuel sorted name indent istr eol sort s1 s2 s3
      (p.1, .seq p.2)
    | .elem kv =>
      let keys := dedupKeys (kv.map Prod.fst)
      let attribsVal := getKey kv "_Attribs"
      let attribsTruthy : Bool :=
        match attribsVal with
        | some av => jsTruthy av
        | none => false
      let hasAttribs : Nat := if attribsTruthy then 1 else 0
      let attrStr : String :=
        match attribsVal with
        | some av =>
          if jsTruthy av then
            composeAttrs av (if sort then jsSortStrings s3 (jsKeysOfNode av) else jsKeysOfNode av)
          else ""
        | none => ""
      let openTxt := itext ++ "<" ++ nm ++ attrStr
      if keys.length > hasAttribs then
        let dataTruthy : Bool :=
          match getKey kv "_Data" with
          | some dv => jsTruthy dv
          | none => false
        if dataTruthy then
          let dv := (getKey kv "_Data").getD (.scalar "")
          (openTxt ++ ">" ++ encodeDataValue dv ++ "</" ++ nm ++ ">" ++ eol, .elem kv)
        else
          let sortedKeys := if sort then jsSortStrings s1 keys else keys
          let q := composeChildren fuel sortedKeys kv (indent + 1) istr eol sort s1 s2 s3
          (openTxt ++ ">" ++ eol ++ q.1 ++ itext ++ "</" ++ nm ++ ">" ++ eol, .elem q.2)
      else (openTxt ++ "/>" ++ eol, .elem kv)
termination_by structural fuel

/-- The array branch's member loop: each member is rendered through the full
`compose_xml` under the same name at the same indent. -/
def composeMembers (fuel : Nat) (xs : List Node) (name : Option String) (indent : Nat)
    (istr eol : String) (sort : Bool) (s1 : Option StrCmp) (s2 : Option NodeCmp)
    (s3 : Option StrCmp) : String × List Node :=
  match fuel with
  | 0 => ("", xs)
  | fuel + 1 =>
    match xs with
    | [] => ("", [])
    | x :: rest =>
      let p := compose_xml fuel x name indent istr eol sort s1 s2 s3
      let q := composeMembers fuel rest name indent istr eol sort s1 s2 s3
      (p.1 ++ q.1, p.2 :: q.2)
termination_by structural fuel

/-- The hash branch's child loop: skip the reserved attributes key and any
key failing the identifier grammar, recurse at `indent + 1`, and record the
child's post-state back into the object. -/
def composeChildren (fuel : Nat) (keys : List String) (kv : Branch) (indent : Nat)
    (istr eol : String) (sort : Bool) (s1 : Option StrCmp) (s2 : Option NodeCmp)
    (s3 : Option StrCmp) : String × Branch :=
  match fuel with
  | 0 => ("", kv)
  | fuel + 1 =>
    match keys with
    | [] => ("", kv)
    | k :: rest =>
      if k ≠ "_Attribs" ∧ validTagName k then
        match getKey kv k with
        | some v =>
          let p := compose_xml fuel v (some k) indent istr eol sort s1 s2 s3
          let kv2 := setKey kv k p.2
          let q := composeChildren fuel rest kv2 indent istr eol sort s1 s2 s3
          (p.1 ++ q.1, q.2)
        | none =>
          let p := compose_xml fuel (.scalar "undefined") (some k) indent istr eol sort s1 s2 s3
          let q := composeChildren fuel rest kv indent istr eol sort s1 s2 s3
          (p.1 ++ q.1, q.2)
      else composeChildren fuel rest kv indent istr eol sort s1 s2 s3
termination_by structural fuel

end

mutual

/-- Size of a node, used only to budget the composer's fuel. -/
def nodeWeight : Node → Nat
  | .scalar _ => 1
  | .elem kv => 1 + kvWeight kv
  | .seq xs => 1 + seqWeight xs

/-- Size of a key/value list. -/
def kvWeight : List (String × Node) → Nat
  | [] => 0
  | (_, v) :: r => 1 + nodeWeight v + kvWeight r

/-- Size of a member list. -/
def seqWeight : List Node → Nat
  | [] => 0
  | x :: r => 1 + nodeWeight x + seqWeight r

end

/-- The public `stringify(tree, rootName, …)` entry point with its prototype
defaults (`indent_string = "\t"`, `eol = "\n"`, `sort = true`, no injected
comparators); the fuel bound comfortably covers the recursion. -/
def stringify (tree : Node) (rootName : String) : String :=
  (compose_xml (8 * (nodeWeight tree + 2)) tree (some rootName) 0 "\t" "\n" true none none none).1

/-! ## Entity codec lemmas

`jsReplaceAll` rewrite rules, and the expansion of the encode passes into a
per-character map, leading to `decode ∘ encode = id`. -/

theorem replAux_congr (p r : List Char) (hp : p ≠ []) :
    ∀ (f : Nat) (s : List Char) (g : Nat), s.length ≤ f → s.length ≤ g →
      replAux p r f s = replAux p r g s := by
  intro f
  induction f with
  | zero =>
    intro s g hf _
    have : s = [] := List.eq_nil_of_length_eq_zero (Nat.le_zero.mp hf)
    subst this
    simp [replAux]
  | succ f ih =>
    intro s g hf hg
    match s, g with
    | [], _ => simp [replAux]
    | c :: t, 0 => simp at hg
    | c :: t, g + 1 =>
      have hplen : 1 ≤ p.length := by
        cases p with
        | nil => exact absurd rfl hp
        | cons a b => simp
      simp only [List.length_cons] at hf hg
      simp only [replAux]
      by_cases hpre : p.isPrefixOf (c :: t)
      · rw [if_pos hpre, if_pos hpre]
        have hlen : ((c :: t).drop p.length).length ≤ f := by
          simp only [List.length_drop, List.length_cons]
          omega
        have hlen2 : ((c :: t).drop p.length).length ≤ g := by
          simp only [List.length_drop, List.length_cons]
          omega
        rw [ih _ g hlen hlen2]
      · rw [if_neg hpre, if_neg hpre]
        have hlen : t.length ≤ f := by omega
        have hlen2 : t.length ≤ g := by omega
        rw [ih _ g hlen hlen2]

theorem jsReplaceAll_nil (p r : List Char) : jsReplaceAll p r [] = [] := rfl

theorem jsReplaceAll_match (p r s : List Char) (hp : p ≠ []) (hpre : p.isPrefixOf s) :
    jsReplaceAll p r s = r ++ jsReplaceAll p r (s.drop p.length) := by
  match s with
  | [] =>
    cases p with
    | nil => exact absurd rfl hp
    | cons a b => simp [List.isPrefixOf] at hpre
  | c :: t =>
    have hplen : 1 ≤ p.length := by
      cases p with
      | nil => exact absurd rfl hp
      | cons a b => simp
    show replAux p r (t.length + 1) (c :: t) = _
    simp only [replAux, hpre, if_true]
    congr 1
    apply replAux_congr p r hp
    · simp only [List.length_drop, List.length_cons]; omega
    · exact le_rfl

theorem jsReplaceAll_nomatch (p r : List Char) (c : Char) (t : List Char)
    (hpre : ¬ p.isPrefixOf (c :: t)) :
    jsReplaceAll p r (c :: t) = c :: jsReplaceAll p r t := by
  show replAux p r (t.length + 1) (c :: t) = _
  simp only [replAux, hpre, if_false]
  rfl

/-- `p` starts with a character other than `c`, so no match begins at `c`. -/
theorem jsReplaceAll_single_nomatch (p r : List Char) (a c : Char) (t : List Char)
    (hhead : p.head? = some a) (hc : c ≠ a) :
    jsReplaceAll p r (c :: t) = c :: jsReplaceAll p r t := by
  apply jsReplaceAll_nomatch
  intro hpre
  cases p with
  | nil => simp at hhead
  | cons a' p' =>
    simp only [List.head?_cons, Option.some.injEq] at hhead
    subst hhead
    simp only [List.isPrefixOf, Bool.and_eq_true, beq_iff_eq] at hpre
    exact hc hpre.1.symm

/-- Inside `u` every potential match position hits a mismatch before running
off the end of `u`; such a `u` is copied verbatim by `jsReplaceAll`,
whatever follows it. -/
def Blocks (pat u : List Char) : Prop :=
  ∀ i, i < u.length → ∃ j, j < pat.length ∧ i + j < u.length ∧ u[i+j]? ≠ pat[j]?

instance (pat u : List Char) : Decidable (Blocks pat u) := by
  unfold Blocks
  infer_instance

theorem Blocks.tail {pat : List Char} {c : Char} {u : List Char}
    (h : Blocks pat (c :: u)) : Blocks pat u := by
  intro i hi
  obtain ⟨j, hj, hlt, hne⟩ := h (i + 1) (by simp; omega)
  refine ⟨j, hj, by simp at hlt; omega, ?_⟩
  have : (c :: u)[i+1+j]? = u[i+j]? := by
    have : i + 1 + j = (i + j) + 1 := by omega
    rw [this]
    simp
  rwa [this] at hne

theorem not_prefix_of_blocks {pat u : List Char} (hb : Blocks pat u)
    (hu : u ≠ []) (x : List Char) : ¬ pat.isPrefixOf (u ++ x) := by
  intro hpre
  have hlen : 0 < u.length := List.length_pos.mpr hu
  obtain ⟨j, hj, hlt, hne⟩ := hb 0 hlen
  simp only [Nat.zero_add] at hlt hne
  rw [List.isPrefixOf_iff_prefix] at hpre
  obtain ⟨tail, htail⟩ := hpre
  apply hne
  calc u[j]? = (u ++ x)[j]? := (List.getElem?_append_left hlt).symm
    _ = (pat ++ tail)[j]? := by rw [htail]
    _ = pat[j]? := List.getElem?_append_left hj

theorem jsReplaceAll_blocks_append (pat r : List Char) :
    ∀ (u : List Char), Blocks pat u → ∀ x,
      jsReplaceAll pat r (u ++ x) = u ++ jsReplaceAll pat r x := by
  intro u
  induction u with
  | nil => intro _ x; simp
  | cons c u' ih =>
    intro hb x
    have hnp : ¬ pat.isPrefixOf ((c :: u') ++ x) :=
      not_prefix_of_blocks hb (by simp) x
    have : (c :: u') ++ x = c :: (u' ++ x) := rfl
    rw [this] at hnp ⊢
    rw [jsReplaceAll_nomatch _ _ _ _ hnp, ih hb.tail x]
    rfl

/-- Per-character expansion (proof infrastructure characterizing the
sequential global replaces). -/
def expandWith (f : Char → List Char) : List Char → List Char
  | [] => []
  | c :: t => f c ++ expandWith f t

/-- The image of one character after the `&` encode pass. -/
def encCharAmp (c : Char) : List Char :=
  if c = '&' then "&amp;".toList else [c]

/-- The image of one character after the `&` and `<` encode passes. -/
def encCharLt (c : Char) : List Char :=
  if c = '&' then "&amp;".toList else if c = '<' then "&lt;".toList else [c]

/-- The image of one character after all three encode passes. -/
def encChar (c : Char) : List Char :=
  if c = '&' then "&amp;".toList
  else if c = '<' then "&lt;".toList
  else if c = '>' then "&gt;".toList
  else [c]

/-- The image of one encoded character after the `&lt;` decode pass. -/
def decCharLt (c : Char) : List Char :=
  if c = '&' then "&amp;".toList else if c = '>' then "&gt;".toList else [c]

theorem encCharAmp_amp : encCharAmp '&' = "&amp;".toList := rfl

theorem encCharAmp_ne {c : Char} (h : c ≠ '&') : encCharAmp c = [c] := if_neg h

theorem encCharLt_amp : encCharLt '&' = "&amp;".toList := rfl

theorem encCharLt_lt : encCharLt '<' = "&lt;".toList := rfl

theorem encCharLt_ne {c : Char} (h1 : c ≠ '&') (h2 : c ≠ '<') : encCharLt c = [c] := by
  unfold encCharLt
  rw [if_neg h1, if_neg h2]

theorem encChar_amp : encChar '&' = "&amp;".toList := rfl

theorem encChar_lt : encChar '<' = "&lt;".toList := rfl

theorem encChar_gt : encChar '>' = "&gt;".toList := rfl

theorem encChar_ne {c : Char} (h1 : c ≠ '&') (h2 : c ≠ '<') (h3 : c ≠ '>') :
    encChar c = [c] := by
  unfold encChar
  rw [if_neg h1, if_neg h2, if_neg h3]

theorem decCharLt_amp : decCharLt '&' = "&amp;".toList := rfl

theorem decCharLt_gt : decCharLt '>' = "&gt;".toList := rfl

theorem decCharLt_ne {c : Char} (h1 : c ≠ '&') (h2 : c ≠ '>') : decCharLt c = [c] := by
  unfold decCharLt
  rw [if_neg h1, if_neg h2]

theorem enc_pass_amp (s : List Char) :
    jsReplaceAll "&".toList "&amp;".toList s = expandWith encCharAmp s := by
  induction s with
  | nil => rfl
  | cons c t ih =>
    by_cases hc : c = '&'
    · subst hc
      rw [jsReplaceAll_match "&".toList "&amp;".toList ('&' :: t) (by simp)
        (by simp [List.isPrefixOf])]
      simp only [expandWith, encCharAmp_amp]
      rw [show ('&' :: t).drop "&".toList.length = t from rfl, ih]
    · rw [jsReplaceAll_single_nomatch "&".toList "&amp;".toList '&' c t rfl hc]
      simp only [expandWith, encCharAmp_ne hc]
      rw [ih]
      rfl

theorem enc_pass_lt (s : List Char) :
    jsReplaceAll "<".toList "&lt;".toList (expandWith encCharAmp s) =
      expandWith encCharLt s := by
  induction s with
  | nil => rfl
  | cons c t ih =>
    by_cases hamp : c = '&'
    · subst hamp
      simp only [expandWith, encCharAmp_amp, encCharLt_amp]
      rw [jsReplaceAll_blocks_append "<".toList "&lt;".toList "&amp;".toList (by decide)
        (expandWith encCharAmp t), ih]
    · by_cases hlt : c = '<'
      · subst hlt
        simp only [expandWith, encCharAmp_ne (by decide : ('<' : Char) ≠ '&'), encCharLt_lt]
        rw [show (['<'] ++ expandWith encCharAmp t) = '<' :: expandWith encCharAmp t from rfl]
        rw [jsReplaceAll_match "<".toList "&lt;".toList _ (by simp) (by simp [List.isPrefixOf])]
        rw [show ('<' :: expandWith encCharAmp t).drop "<".toList.length
          = expandWith encCharAmp t from rfl, ih]
      · simp only [expandWith, encCharAmp_ne hamp, encCharLt_ne hamp hlt]
        rw [show ([c] ++ expandWith encCharAmp t) = c :: expandWith encCharAmp t from rfl]
        rw [jsReplaceAll_single_nomatch "<".toList "&lt;".toList '<' c _ rfl hlt, ih]
        rfl

theorem enc_pass_gt (s : List Char) :
    jsReplaceAll ">".toList "&gt;".toList (expandWith encCharLt s) =
      expandWith encChar s := by
  induction s with
  | nil => rfl
  | cons c t ih =>
    by_cases hamp : c = '&'
    · subst hamp
      simp only [expandWith, encCharLt_amp, encChar_amp]
      rw [jsReplaceAll_blocks_append ">".toList "&gt;".toList "&amp;".toList (by decide)
        (expandWith encCharLt t), ih]
    · by_cases hlt : c = '<'
      · subst hlt
        simp only [expandWith, encCharLt_lt, encChar_lt]
        rw [jsReplaceAll_blocks_append ">".toList "&gt;".toList "&lt;".toList (by decide)
          (expandWith encCharLt t), ih]
      · by_cases hgt : c = '>'
        · subst hgt
          simp only [expandWith, encCharLt_ne hamp hlt, encChar_gt]
          rw [show (['>'] ++ expandWith encCharLt t) = '>' :: expandWith encCharLt t from rfl]
          rw [jsReplaceAll_match ">".toList "&gt;".toList _ (by simp) (by simp [List.isPrefixOf])]
          rw [show ('>' :: expandWith encCharLt t).drop ">".toList.length
            = expandWith encCharLt t from rfl, ih]
        · simp only [expandWith, encCharLt_ne hamp hlt, encChar_ne hamp hlt hgt]
          rw [show ([c] ++ expandWith encCharLt t) = c :: expandWith encCharLt t from rfl]
          rw [jsReplaceAll_single_nomatch ">".toList "&gt;".toList '>' c _ rfl hgt, ih]
          rfl

/-- The three encode passes amount to a per-character expansion. -/
theorem encode_expand (s : List Char) :
    encode_entities s = expandWith encChar s := by
  unfold encode_entities
  rw [enc_pass_amp, enc_pass_lt, enc_pass_gt]

theorem dec_pass_lt (s : List Char) :
    jsReplaceAll "&lt;".toList "<".toList (expandWith encChar s) =
      expandWith decCharLt s := by
  induction s with
  | nil => rfl
  | cons c t ih =>
    by_cases hamp : c = '&'
    · subst hamp
      simp only [expandWith, encChar_amp, decCharLt_amp]
      rw [jsReplaceAll_blocks_append "&lt;".toList "<".toList "&amp;".toList (by decide)
        (expandWith encChar t), ih]
    · by_cases hlt : c = '<'
      · subst hlt
        simp only [expandWith, encChar_lt, @decCharLt_ne '<' (by decide) (by decide)]
        rw [jsReplaceAll_match "&lt;".toList "<".toList _ (by simp)
          (List.isPrefixOf_iff_prefix.mpr (List.prefix_append _ _))]
        rw [show ("&lt;".toList ++ expandWith encChar t).drop "&lt;".toList.length
          = expandWith encChar t from List.drop_left _ _, ih]
        rfl
      · by_cases hgt : c = '>'
        · subst hgt
          simp only [expandWith, encChar_gt, decCharLt_gt]
          rw [jsReplaceAll_blocks_append "&lt;".toList "<".toList "&gt;".toList (by decide)
            (expandWith encChar t), ih]
        · simp only [expandWith, encChar_ne hamp hlt hgt, decCharLt_ne hamp hgt]
          rw [show ([c] ++ expandWith encChar t) = c :: expandWith encChar t from rfl]
          rw [jsReplaceAll_single_nomatch "&lt;".toList "<".toList '&' c _ rfl hamp, ih]
          rfl

theorem dec_pass_gt (s : List Char) :
    jsReplaceAll "&gt;".toList ">".toList (expandWith decCharLt s) =
      expandWith encCharAmp s := by
  induction s with
  | nil => rfl
  | cons c t ih =>
    by_cases hamp : c = '&'
    · subst hamp
      simp only [expandWith, decCharLt_amp, encCharAmp_amp]
      rw [jsReplaceAll_blocks_append "&gt;".toList ">".toList "&amp;".toList (by decide)
        (expandWith decCharLt t), ih]
    · by_cases hgt : c = '>'
      · subst hgt
        simp only [expandWith, decCharLt_gt, encCharAmp_ne (by decide : ('>' : Char) ≠ '&')]
        rw [jsReplaceAll_match "&gt;".toList ">".toList _ (by simp)
          (List.isPrefixOf_iff_prefix.mpr (List.prefix_append _ _))]
        rw [show ("&gt;".toList ++ expandWith decCharLt t).drop "&gt;".toList.length
          = expandWith decCharLt t from List.drop_left _ _, ih]
        rfl
      · simp only [expandWith, decCharLt_ne hamp hgt, encCharAmp_ne hamp]
        rw [show ([c] ++ expandWith decCharLt t) = c :: expandWith decCharLt t from rfl]
        rw [jsReplaceAll_single_nomatch "&gt;".toList ">".toList '&' c _ rfl hamp, ih]
        rfl

/-- Neither `&quot;` nor `&apos;` can occur in a text whose every `&` is the
start of an `&amp;` image, so those two decode passes change nothing. -/
theorem dec_pass_inert (pat r : List Char) (hpat : pat.head? = some '&')
    (hblk : Blocks pat "&amp;".toList) (s : List Char) :
    jsReplaceAll pat r (expandWith encCharAmp s) = expandWith encCharAmp s := by
  induction s with
  | nil => rfl
  | cons c t ih =>
    by_cases hamp : c = '&'
    · subst hamp
      simp only [expandWith, encCharAmp_amp]
      rw [jsReplaceAll_blocks_append pat r "&amp;".toList hblk (expandWith encCharAmp t), ih]
    · simp only [expandWith, encCharAmp_ne hamp]
      rw [show ([c] ++ expandWith encCharAmp t) = c :: expandWith encCharAmp t from rfl]
      rw [jsReplaceAll_single_nomatch pat r '&' c _ hpat hamp, ih]

theorem dec_pass_amp (s : List Char) :
    jsReplaceAll "&amp;".toList "&".toList (expandWith encCharAmp s) = s := by
  induction s with
  | nil => rfl
  | cons c t ih =>
    by_cases hamp : c = '&'
    · subst hamp
      simp only [expandWith, encCharAmp_amp]
      rw [jsReplaceAll_match "&amp;".toList "&".toList _ (by simp)
        (List.isPrefixOf_iff_prefix.mpr (List.prefix_append _ _))]
      rw [show ("&amp;".toList ++ expandWith encCharAmp t).drop "&amp;".toList.length
        = expandWith encCharAmp t from List.drop_left _ _, ih]
      rfl
    · simp only [expandWith, encCharAmp_ne hamp]
      rw [show ([c] ++ expandWith encCharAmp t) = c :: expandWith encCharAmp t from rfl]
      rw [jsReplaceAll_single_nomatch "&amp;".toList "&".toList '&' c _ rfl hamp, ih]

/-- All five decode passes applied to an encoded text recover the original. -/
theorem decodeCore_encode (s : List Char) :
    decodeCore (encode_entities s) = s := by
  unfold decodeCore
  rw [encode_expand, dec_pass_lt, dec_pass_gt,
    dec_pass_inert "&quot;".toList "\"".toList rfl (by decide),
    dec_pass_inert "&apos;".toList "'".toList rfl (by decide),
    dec_pass_amp]

/-- When the encoded text contains no `&`, the original contained none of
`& < >`, so encoding changed nothing. -/
theorem encode_id_of_no_amp (s : List Char)
    (h : ¬ '&' ∈ expandWith encChar s) : expandWith encChar s = s := by
  induction s with
  | nil => rfl
  | cons c t ih =>
    by_cases hamp : c = '&'
    · exact absurd (by subst hamp; simp [expandWith, encChar]) h
    · by_cases hlt : c = '<'
      · exact absurd (by subst hlt; simp [expandWith, encChar]) h
      · by_cases hgt : c = '>'
        · exact absurd (by subst hgt; simp [expandWith, encChar]) h
        · simp only [expandWith, encChar, if_neg hamp, if_neg hlt, if_neg hgt] at h ⊢
          simp only [List.singleton_append, List.mem_cons, not_or] at h
          rw [show ([c] ++ expandWith encChar t) = c :: expandWith encChar t from rfl]
          rw [ih h.2]

/-- `decode_entities (encode_entities s) = s`, unconditionally: in the
encoded text every `&` begins one of the three images `&amp; &lt; &gt;`, so
each decode pass rewrites exactly the places the encoder produced. -/
theorem decode_encode_id (s : List Char) :
    decode_entities (encode_entities s) = s := by
  unfold decode_entities
  by_cases h : (encode_entities s).contains '&'
  · rw [if_pos h]
    exact decodeCore_encode s
  · rw [if_neg h]
    rw [encode_expand] at h ⊢
    apply encode_id_of_no_amp
    intro hmem
    exact h (List.elem_iff.mpr hmem)

/-! ## Structural helper lemmas -/

theorem setKey_self (kv : Branch) (k : String) (v : Node) (h : getKey kv k = some v) :
    setKey kv k v = kv := by
  induction kv with
  | nil => simp [getKey] at h
  | cons p rest ih =>
    obtain ⟨k2, v2⟩ := p
    by_cases hk : k2 = k
    · subst hk
      rw [getKey, if_pos rfl] at h
      injection h with h
      rw [setKey, if_pos rfl, h]
    · rw [getKey, if_neg hk] at h
      rw [setKey, if_neg hk, ih h]

theorem list_set_self (xs : List Node) (i : Nat) (v : Node) (h : xs[i]? = some v) :
    xs.set i v = xs := by
  induction xs generalizing i with
  | nil => simp at h
  | cons x rest ih =>
    cases i with
    | zero =>
      simp only [List.getElem?_cons_zero, Option.some.injEq] at h
      rw [h]
      rfl
    | succ i =>
      simp only [List.getElem?_cons_succ] at h
      rw [List.set_cons_succ, ih i h]

theorem jsSetKeyNode_self (node : Node) (k : String) (v : Node)
    (h : jsGetKeyNode node k = some v) : jsSetKeyNode node k v = node := by
  cases node with
  | scalar s => rfl
  | elem kv =>
    simp only [jsGetKeyNode] at h
    simp only [jsSetKeyNode]
    rw [setKey_self kv k v h]
  | seq xs =>
    simp only [jsGetKeyNode] at h
    simp only [jsSetKeyNode]
    cases hn : k.toNat? with
    | none => rw [hn] at h
    | some i =>
      rw [hn] at h
      change xs[i]? = some v at h
      change Node.seq (xs.set i v) = Node.seq xs
      rw [list_set_self xs i v h]

/-! ## Claim C4 — entity codec round trip -/

/-- Does `p` occur as a contiguous substring of the second argument? -/
def hasSub (p : List Char) : List Char → Bool
  | [] => p.isEmpty
  | c :: t => p.isPrefixOf (c :: t) ∨ hasSub p t

/-- The claim's side condition: `s` does not itself contain any of the five
valid entity sequences. -/
def entityFree (s : List Char) : Bool :=
  ¬ hasSub "&lt;".toList s ∧ ¬ hasSub "&gt;".toList s ∧
  ¬ hasSub "&quot;".toList s ∧ ¬ hasSub "&apos;".toList s ∧
  ¬ hasSub "&amp;".toList s

/-- C4: for every string built from ordinary characters plus `& < > " '` in
any combination that does not itself form a valid entity sequence,
`decode_entities (encode_entities s) = s`.  (The proof in fact shows the
round trip unconditionally; the side condition of the claim is kept as
stated.) -/
theorem claim_C4_codec_roundtrip (s : List Char) :
    entityFree s = true → decode_entities (encode_entities s) = s :=
  fun _ => decode_encode_id s

theorem claim_C4_codec_roundtrip_witness :
    entityFree "a&b<c>d\"e'f".toList = true ∧
      decode_entities (encode_entities "a&b<c>d\"e'f".toList) = "a&b<c>d\"e'f".toList :=
  ⟨by decide, claim_C4_codec_roundtrip "a&b<c>d\"e'f".toList (by decide)⟩

/-! ## Claim C9 — CDATA with an embedded `>` -/

/-- C9: a CDATA section containing `>` is not terminated at the embedded
`>`; `<R><![CDATA[a>b]]></R>` parses with R's text content exactly `a>b`. -/
theorem claim_C9_cdata_embedded_gt :
    parse_xml "<R><![CDATA[a>b]]></R>" {} = .ok (.scalar "a>b") := by decide

/-! ## Claim C8 — TooManyTopLevelNodes is unreachable -/

/-- C8 (code bug): with two sibling root elements the parse does **not**
fail with TooManyTopLevelNodes — the root loop breaks after attaching the
first top-level element (`if (this.error() || (branch == this.tree)) break`),
so `<B></B>` is never scanned, the root holds a single key, and the parse
succeeds with the first element's (empty) value. -/
theorem claim_C8_two_roots_accepted :
    parse_xml "<A></A><B></B>" {} = .ok (.scalar "") := by decide

/-! ## Claim C1 — parse errors are thrown, not returned -/

/-- C1 (counterexample): on a structural problem `parse_xml` does not return
the formatted error string as a value; the `Error` thrown by
`throwParseError` escapes the call (modelled by the `.error` constructor). -/
theorem claim_C1_counterexample :
    parse_xml "<&>" {} = .error "Parse Error: Malformed tag on line 1: <&>" := by decide

/-- C1 (amended): for every input that takes the XML path (the constructor's
`^\s*<` test), the public parse either returns the finished tree or throws an
`Error` whose message is the formatted error string of a structured error
record; the first structural problem aborts the whole parse this way. -/
theorem claim_C1_throws_formatted (text : String) (opts : Opts)
    (h : looksLikeXml text = true) :
    (∃ t, parse_xml text opts = Except.ok t) ∨
      (∃ e : XmlError, parse_xml text opts = Except.error (getError e)) := by
  cases hp : parseTop (normalizeOpts opts) text.data with
  | error e =>
    right
    exact ⟨e, by unfold parse_xml; rw [if_pos h, hp]⟩
  | ok r =>
    left
    exact ⟨r.tree, by unfold parse_xml; rw [if_pos h, hp]⟩

theorem claim_C1_throws_formatted_witness :
    looksLikeXml "<A/>" = true ∧
      ((∃ t, parse_xml "<A/>" {} = Except.ok t) ∨
        (∃ e : XmlError, parse_xml "<A/>" {} = Except.error (getError e))) :=
  ⟨by decide, claim_C1_throws_formatted "<A/>" {} (by decide)⟩

/-! ## Claim C10 — empty elements collapse to the empty string -/

/-- C10: an element that ends with no keys at all (no attribute keys, no
child keys, no text slot) is stored as the bare Scalar `""`, never as an
empty Element mapping; concretely both a non-self-closing and a self-closing
empty element parse to `""`, in preserved and in merged attribute mode. -/
theorem claim_C10_empty_elements :
    (∀ (o : Opts) (leaf : Branch), numKeys leaf = 0 → collapseLeaf o leaf = .scalar "") ∧
    parse_xml "<R><X></X><Y/></R>" { preserveAttributes := true } =
      .ok (.elem [("X", .scalar ""), ("Y", .scalar "")]) ∧
    parse_xml "<R><X></X><Y/></R>" {} =
      .ok (.elem [("X", .scalar ""), ("Y", .scalar "")]) := by
  refine ⟨?_, by decide, by decide⟩
  intro o leaf h
  have : leaf = [] := List.eq_nil_of_length_eq_zero h
  subst this
  rfl

theorem claim_C10_empty_elements_witness :
    numKeys [] = 0 ∧ collapseLeaf {} [] = Node.scalar "" :=
  ⟨rfl, claim_C10_empty_elements.1 {} [] rfl⟩

/-! ## Claim C6 — array-forcing below the root only -/

/-- C6: with array-forcing enabled a fresh (non-repeated) child attached to
a non-root branch is wrapped in a one-element Sequence, while a fresh child
attached at the document root is assigned directly; concretely
`<Doc><A>x</A></Doc>` with array-forcing has the depth-1 child `A` wrapped
and the root `Doc` value unwrapped. -/
theorem claim_C6_forcearrays_root_exempt :
    (∀ (o : Opts) (branch : Branch) (nm : String) (leaf : Node),
       o.forceArrays = true → getKey branch nm = none →
       attachLeaf o branch nm leaf false = setKey branch nm (.seq [leaf])) ∧
    (∀ (o : Opts) (branch : Branch) (nm : String) (leaf : Node),
       getKey branch nm = none →
       attachLeaf o branch nm leaf true = setKey branch nm leaf) ∧
    parse_xml "<Doc><A>x</A></Doc>" { forceArrays := true } =
      .ok (.elem [("A", .seq [.scalar "x"])]) := by
  refine ⟨?_, ?_, by decide⟩
  · intro o branch nm leaf hfa hfresh
    unfold attachLeaf
    rw [hfresh]
    simp [hfa]
  · intro o branch nm leaf hfresh
    unfold attachLeaf
    rw [hfresh]
    simp

theorem claim_C6_forcearrays_root_exempt_witness :
    attachLeaf { forceArrays := true } [] "A" (Node.scalar "x") false
      = setKey [] "A" (.seq [.scalar "x"]) :=
  claim_C6_forcearrays_root_exempt.1 { forceArrays := true } [] "A" (.scalar "x") rfl rfl

/-! ## Claim C5 — duplicate siblings flatten, but Sequences can nest -/

mutual

/-- Does some Sequence in the tree directly contain a Sequence member? -/
def hasNestedSeq : Node → Bool
  | .scalar _ => false
  | .elem kv => kvHasNested kv
  | .seq xs => memHasNested xs

/-- Nested-sequence search through element values. -/
def kvHasNested : List (String × Node) → Bool
  | [] => false
  | (_, v) :: r => hasNestedSeq v ∨ kvHasNested r

/-- Nested-sequence search through Sequence members: a member that is itself
a Sequence is a hit. -/
def memHasNested : List Node → Bool
  | [] => false
  | x :: r => isaArray x ∨ hasNestedSeq x ∨ memHasNested r

end

set_option maxHeartbeats 4000000 in
/-- C5 (counterexample): a successful parse **can** produce a Sequence whose
direct member is a Sequence: an element whose only key is the reserved data
key collapses to that key's value, and duplicate `<_Data>` children make that
value a Sequence, which the parent then stores as a Sequence member. -/
theorem claim_C5_counterexample :
    parse_xml "<R><X>c</X><X><_Data>a</_Data><_Data>b</_Data></X></R>" {} =
      .ok (.elem [("X", .seq [.scalar "c", .seq [.scalar "a", .scalar "b"]])]) ∧
    hasNestedSeq (.elem [("X", .seq [.scalar "c", .seq [.scalar "a", .scalar "b"]])]) = true := by
  exact ⟨by decide, by decide⟩

/-- C5 (amended): the duplicate-sibling mechanism itself is as described —
the first duplicate turns the single prior value plus the new one into a
two-element Sequence, every later duplicate appends to that same Sequence,
and `<R><I>1</I><I>2</I></R>` parses to `["1","2"]` — but the "a Sequence
never contains a Sequence" invariant fails when a leaf that is itself a
Sequence (via the reserved-data-key collapse) is attached. -/
theorem claim_C5_duplicates_flatten :
    (∀ (o : Opts) (branch : Branch) (nm : String) (leaf : Node) (isRoot : Bool) (v : Node),
       getKey branch nm = some v → isaArray v = false →
       attachLeaf o branch nm leaf isRoot = setKey branch nm (.seq [v, leaf])) ∧
    (∀ (o : Opts) (branch : Branch) (nm : String) (leaf : Node) (isRoot : Bool) (xs : List Node),
       getKey branch nm = some (.seq xs) →
       attachLeaf o branch nm leaf isRoot = setKey branch nm (.seq (xs ++ [leaf]))) ∧
    parse_xml "<R><I>1</I><I>2</I></R>" {} =
      .ok (.elem [("I", .seq [.scalar "1", .scalar "2"])]) := by
  refine ⟨?_, ?_, by decide⟩
  · intro o branch nm leaf isRoot v hv hnv
    unfold attachLeaf
    rw [hv]
    cases v with
    | scalar s => rfl
    | elem kv => rfl
    | seq xs => simp [isaArray] at hnv
  · intro o branch nm leaf isRoot xs hv
    unfold attachLeaf
    rw [hv]

theorem claim_C5_duplicates_flatten_witness :
    attachLeaf {} [("I", Node.scalar "1")] "I" (Node.scalar "2") false
      = setKey [("I", Node.scalar "1")] "I" (.seq [.scalar "1", .scalar "2"]) :=
  claim_C5_duplicates_flatten.1 {} [("I", .scalar "1")] "I" (.scalar "2") false
    (.scalar "1") (by decide) (by decide)

/-! ## Claim C2 — composing mutates the tree when sorting, not otherwise -/

/-- With sorting disabled no `Array.prototype.sort` runs and every recursion
hands each sub-object back unchanged (joint statement for the four mutually
recursive composer functions). -/
theorem compose_nosort_state (fuel : Nat) :
    (∀ node name indent istr eol s1 s2 s3,
      (compose_xml fuel node name indent istr eol false s1 s2 s3).2 = node) ∧
    (∀ node name indent istr eol s1 s2 s3,
      (composeBody fuel node name indent istr eol false s1 s2 s3).2 = node) ∧
    (∀ xs name indent istr eol s1 s2 s3,
      (composeMembers fuel xs name indent istr eol false s1 s2 s3).2 = xs) ∧
    (∀ keys kv indent istr eol s1 s2 s3,
      (composeChildren fuel keys kv indent istr eol false s1 s2 s3).2 = kv) := by
  induction fuel with
  | zero =>
    refine ⟨?_, ?_, ?_, ?_⟩
    · intro node name indent istr eol s1 s2 s3; rfl
    · intro node name indent istr eol s1 s2 s3; rfl
    · intro xs name indent istr eol s1 s2 s3; rfl
    · intro keys kv indent istr eol s1 s2 s3; rfl
  | succ fuel ih =>
    obtain ⟨ihN, ihB, ihM, ihC⟩ := ih
    refine ⟨?_, ?_, ?_, ?_⟩
    · intro node name indent istr eol s1 s2 s3
      simp only [compose_xml]
      by_cases hi : indent = 0
      · rw [if_pos hi]
        by_cases hf : jsFalsyName name = true
        · rw [if_pos hf]
          cases hg : jsGetKeyNode node ((jsFirstKeyNode node).getD "null") with
          | some sub =>
            simp only
            rw [ihB]
            exact jsSetKeyNode_self _ _ _ hg
          | none => rfl
        · rw [if_neg hf]
          simp only
          rw [ihB]
      · rw [if_neg hi]
        exact ihB node name indent istr eol s1 s2 s3
    · intro node name indent istr eol s1 s2 s3
      simp only [composeBody]
      cases node with
      | scalar sv => rfl
      | seq xs =>
        cases xs with
        | nil => rfl
        | cons x rest =>
          simp only [Bool.false_eq_true, if_false]
          rw [ihM]
      | elem kv =>
        simp only [Bool.false_eq_true, if_false, ihC]
        simp only [apply_ite Prod.snd, ite_self]
    · intro xs name indent istr eol s1 s2 s3
      simp only [composeMembers]
      cases xs with
      | nil => rfl
      | cons x rest =>
        simp only
        rw [ihN, ihM]
    · intro keys kv indent istr eol s1 s2 s3
      cases keys with
      | nil => rfl
      | cons k rest =>
        simp only [composeChildren]
        split
        · cases hk : getKey kv k with
          | some v => simp [ihN, setKey_self kv k v hk, ihC]
          | none => simp [ihC]
        · exact ihC rest kv indent istr eol s1 s2 s3

/-- C2 (amended): with sorting disabled, composing is pure — the input tree
value, Sequence order included, is returned unchanged; with sorting enabled
(the default) the composer sorts Sequence arrays in place. -/
theorem claim_C2_nosort_is_pure (fuel : Nat) (node : Node) (name : Option String)
    (indent : Nat) (istr eol : String) (s1 : Option StrCmp) (s2 : Option NodeCmp)
    (s3 : Option StrCmp) :
    (compose_xml fuel node name indent istr eol false s1 s2 s3).2 = node :=
  (compose_nosort_state fuel).1 node name indent istr eol s1 s2 s3

/-- C2 (counterexample): composing with the default options (sorting on, no
comparator, so JS's default string comparison) reorders the Sequence
`["2","1"]` inside the input tree in place — the tree value after the call
differs from the value before. -/
theorem claim_C2_counterexample :
    (compose_xml 100 (.elem [("I", .seq [.scalar "2", .scalar "1"])]) none 0
        "\t" "\n" true none none none).2
      = .elem [("I", .seq [.scalar "1", .scalar "2"])] ∧
    (compose_xml 100 (.elem [("I", .seq [.scalar "2", .scalar "1"])]) none 0
        "\t" "\n" true none none none).2
      ≠ .elem [("I", .seq [.scalar "2", .scalar "1"])] := by
  exact ⟨by decide, by decide⟩

/-! ## Claim C3 — parse / compose / re-parse round trip -/

/-- The tree parsed (with attribute preservation) from the end-to-end
example document `<?xml version="1.0"?><Doc><Item id="1">Hello</Item></Doc>`. -/
def d0tree : Node :=
  .elem [("Item", .elem [("_Attribs", .elem [("id", .scalar "1")]), ("_Data", .scalar "Hello")])]

set_option maxHeartbeats 8000000 in
/-- C3 (amended): parse–compose–re-parse yields a tree equal in data and
attributes to the first parse only when no collapsed text needs escaping; it
holds for the spec's own attribute-bearing end-to-end document, shown here
with attribute preservation on. -/
theorem claim_C3_roundtrip_when_no_escaping :
    parse_xml "<?xml version=\"1.0\"?><Doc><Item id=\"1\">Hello</Item></Doc>"
        { preserveAttributes := true } = .ok d0tree ∧
    parse_xml (stringify d0tree "Doc") { preserveAttributes := true } = .ok d0tree := by
  exact ⟨by decide, by decide⟩

/-- The tree parsed (with attribute preservation) from
`<R k="v"><A>&lt;</A></R>`: A's collapsed text is the raw `<`. -/
def d1tree : Node :=
  .elem [("_Attribs", .elem [("k", .scalar "v")]), ("A", .scalar "<")]

set_option maxHeartbeats 8000000 in
/-- C3 (counterexample): for the well-formed attribute-bearing document
`<R k="v"><A>&lt;</A></R>` the composer emits the collapsed scalar text
unescaped (`<A><</A>`), and re-parsing the composed text fails instead of
yielding a tree equal to the first parse. -/
theorem claim_C3_counterexample :
    parse_xml "<R k=\"v\"><A>&lt;</A></R>" { preserveAttributes := true } = .ok d1tree ∧
    parse_xml (stringify d1tree "R") { preserveAttributes := true } =
      .error "Parse Error: Malformed tag on line 3: <</A>" := by
  exact ⟨by decide, by decide⟩

/-! ## Claim C7 — mismatched and missing closing tags -/

/-- A tag that parses as a closing standard tag starts (after whitespace)
with `/`, so it is not classified as a special tag. -/
theorem parseStandardTag_closing_not_special (tag rawName ar : List Char)
    (h : parseStandardTag tag = some (true, rawName, ar)) :
    isSpecialTag tag = false := by
  unfold parseStandardTag at h
  unfold isSpecialTag
  split at h
  next r2 heq =>
    rw [heq]
    rfl
  next r heq =>
    exfalso
    cases hnr : nameAndRest (skipWs tag) with
    | none => rw [hnr] at h; simp at h
    | some p => rw [hnr] at h; simp at h

/-- C7: when the next scanned tag is a closing tag whose (folded) name
differs from the currently open element's name, the tag loop fails with the
Mismatched closing tag error; when the scanner finds no further tag while a
named (non-root) element is still open, the loop fails with the Missing
closing tag error; concretely `<A><B></A>` and `<A><B></B>` throw those two
formatted errors. -/
theorem claim_C7_closing_tag_errors :
    (∀ (o : Opts) (text : List Char) (fuel : Nat) (st : ScanSt) (branch : Branch)
       (name : Option String) (isRoot : Bool) (before tag : List Char) (p2 : Nat)
       (rawName ar : List Char),
       patTagExec text st.pos = some (before, tag, p2) →
       parseStandardTag tag = some (true, rawName, ar) →
       foldName o ⟨rawName⟩ ≠ name.getD "" →
       parseLoop o text (fuel + 1) st branch name isRoot =
         .error (mkParseErr text p2
           ("Mismatched closing tag (expected </" ++ jsNameStr name ++ ">)") tag)) ∧
    (∀ (o : Opts) (text : List Char) (fuel : Nat) (st : ScanSt) (branch : Branch)
       (n : String) (isRoot : Bool),
       patTagExec text st.pos = none →
       parseLoop o text (fuel + 1) st branch (some n) isRoot =
         .error (mkParseErr text 0 ("Missing closing tag (expected </" ++ n ++ ">)") n.toList)) ∧
    parse_xml "<A><B></A>" {} =
      .error "Parse Error: Mismatched closing tag (expected </B>) on line 1: </A>" ∧
    parse_xml "<A><B></B>" {} =
      .error "Parse Error: Missing closing tag (expected </A>) on line 1: <A>" := by
  refine ⟨?_, ?_, by decide, by decide⟩
  · intro o text fuel st branch name isRoot before tag p2 rawName ar hexec hstd hne
    have hspec := parseStandardTag_closing_not_special tag rawName ar hstd
    simp only [parseLoop, hexec, hspec, hstd, Bool.false_eq_true, if_false]
    simp [hne]
  · intro o text fuel st branch n isRoot hexec
    simp only [parseLoop, hexec]

theorem claim_C7_closing_tag_errors_witness :
    parseLoop {} "</A>".toList 6 ⟨0, [], []⟩ [] (some "B") false =
      .error (mkParseErr "</A>".toList 4
        "Mismatched closing tag (expected </B>)" "/A".toList) :=
  claim_C7_closing_tag_errors.1 {} "</A>".toList 5 ⟨0, [], []⟩ [] (some "B") false
    [] "/A".toList 4 "A".toList [] (by decide) (by decide) (by decide)

end XmlSorter
